import Mathlib

/-
  Verification development for the DelayKiller-Lite repository
  (src/DelayKillerLite.py and src/delaykiller.py).

  The Python code is shallowly embedded: pure parsing/command-building logic
  becomes Lean functions over `List Char` / `String`; the effectful pieces
  (subprocess invocation, the snapshot file, the live system state) become
  explicit parameters (oracles, a `World` record) or explicit command traces.
  Regular-expression use in the source is embedded by specialised matchers
  that implement the semantics of exactly the patterns appearing in the code;
  each matcher documents the pattern it implements.
-/

set_option maxRecDepth 20000

/-! ## Character classes (Python `re` semantics, ASCII range)

Python's `\s` is `[ \t\n\r\f\v]`, `\w` is `[A-Za-z0-9_]`, `.` matches any
character except `'\n'`.  The source only ever scrapes ASCII tool output, so
the ASCII classes are the faithful embedding. -/

def isPySpace (c : Char) : Bool :=
  c = ' ' || c = '\t' || c = '\n' || c = '\r' || c = '\x0b' || c = '\x0c'

def isWordChar (c : Char) : Bool :=
  (('a' ≤ c && c ≤ 'z') || ('A' ≤ c && c ≤ 'Z') || ('0' ≤ c && c ≤ '9') || c = '_')

def isDigitChar (c : Char) : Bool :=
  '0' ≤ c && c ≤ '9'

def isHexDigit (c : Char) : Bool :=
  isDigitChar c || ('a' ≤ c && c ≤ 'f') || ('A' ≤ c && c ≤ 'F')

/-- Python `str.strip()` with no argument: drop leading and trailing
whitespace. -/
def pyStrip (cs : List Char) : List Char :=
  ((cs.dropWhile isPySpace).reverse.dropWhile isPySpace).reverse

/-- String-level wrapper for `pyStrip`. -/
def pyStripS (s : String) : String :=
  ⟨pyStrip s.data⟩

/-! ## Basic list scanning helpers -/

/-- Does `cs` begin with the literal `w` (character-exact)? -/
def startsWith : List Char → List Char → Bool
  | [], _ => true
  | _ :: _, [] => false
  | a :: as, b :: bs => a == b && startsWith as bs

/-- Python's `w in s` substring test. -/
def containsSub (w : List Char) : List Char → Bool
  | [] => startsWith w []
  | c :: r => startsWith w (c :: r) || containsSub w r

theorem startsWith_iff (w cs : List Char) :
    startsWith w cs = true ↔ ∃ post, cs = w ++ post := by
  induction w generalizing cs with
  | nil => simp [startsWith]
  | cons a as ih =>
    cases cs with
    | nil => simp [startsWith]
    | cons b bs =>
      simp only [startsWith, Bool.and_eq_true, beq_iff_eq, ih, List.cons_append,
        List.cons.injEq]
      constructor
      · rintro ⟨rfl, post, rfl⟩; exact ⟨post, rfl, rfl⟩
      · rintro ⟨post, rfl, rfl⟩; exact ⟨rfl, post, rfl⟩

theorem containsSub_iff (w cs : List Char) :
    containsSub w cs = true ↔ ∃ pre post, cs = pre ++ w ++ post := by
  induction cs with
  | nil =>
    simp only [containsSub, startsWith_iff]
    constructor
    · rintro ⟨post, h⟩; exact ⟨[], post, by simpa using h⟩
    · rintro ⟨pre, post, h⟩
      have h' : pre ++ (w ++ post) = [] := by simpa using h.symm
      rcases List.append_eq_nil.mp h' with ⟨-, h2⟩
      exact ⟨post, by simp [h2.symm]⟩
  | cons c r ih =>
    simp only [containsSub, Bool.or_eq_true, startsWith_iff, ih]
    constructor
    · rintro (⟨post, h⟩ | ⟨pre, post, h⟩)
      · exact ⟨[], post, by simpa using h⟩
      · exact ⟨c :: pre, post, by simp [h]⟩
    · rintro ⟨pre, post, h⟩
      cases pre with
      | nil => exact Or.inl ⟨post, by simpa using h⟩
      | cons c' pre' =>
        simp only [List.cons_append, List.cons.injEq] at h
        exact Or.inr ⟨pre', post, h.2⟩

/-! ## Python `str.splitlines` and the line normalisation used by the probe

`get_tcp_globals` does `text = "\n".join(out.splitlines())` before matching.
Python `splitlines` breaks on `\n`, `\r`, `\r\n` (and the rarer ASCII
separators `\x0b`, `\x0c`, `\x1c`-`\x1e`); a trailing terminator produces no
final empty line. -/

def isLineBrk (c : Char) : Bool :=
  c = '\n' || c = '\r' || c = '\x0b' || c = '\x0c' || c = '\x1c' || c = '\x1d' || c = '\x1e'

def splitlinesAux (acc : List Char) : List Char → List (List Char)
  | [] => [acc.reverse]
  | '\r' :: '\n' :: [] => [acc.reverse]
  | '\r' :: '\n' :: r => acc.reverse :: splitlinesAux [] r
  | c :: r =>
    if isLineBrk c then
      match r with
      | [] => [acc.reverse]
      | _ :: _ => acc.reverse :: splitlinesAux [] r
    else splitlinesAux (c :: acc) r

def splitlines : List Char → List (List Char)
  | [] => []
  | c :: r => splitlinesAux [] (c :: r)

/-- Python `"\n".join(lines)`. -/
def joinNl (ls : List (List Char)) : List Char :=
  match ls with
  | [] => []
  | l :: rest => rest.foldl (fun acc x => acc ++ '\n' :: x) l

/-- The normalisation `"\n".join(out.splitlines())` from `get_tcp_globals`. -/
def normalizeLines (cs : List Char) : List Char :=
  joinNl (splitlines cs)

/-! ## Association lists standing in for Python dicts

Keys are kept in insertion order; inserting an existing key overwrites its
value in place, exactly like a Python dict. -/

def lookupA {α : Type} (m : List (String × α)) (k : String) : Option α :=
  match m.find? (fun kv => kv.1 == k) with
  | some kv => some kv.2
  | none => none

def dictInsert {α : Type} : List (String × α) → String → α → List (String × α)
  | [], k, v => [(k, v)]
  | kv :: rest, k, v =>
    if kv.1 = k then (kv.1, v) :: rest else kv :: dictInsert rest k v

/-- Python `enumerate(xs, start=n)`. -/
def enumFrom {α : Type} (n : Nat) : List α → List (Nat × α)
  | [] => []
  | a :: as => (n, a) :: enumFrom (n + 1) as

theorem enumFrom_get? {α : Type} (n : Nat) (l : List α) (j : Nat) :
    (enumFrom n l).get? j = (l.get? j).map (fun a => (n + j, a)) := by
  induction l generalizing n j with
  | nil => simp [enumFrom]
  | cons a as ih =>
    cases j with
    | zero => simp [enumFrom]
    | succ j' =>
      simp only [enumFrom, List.get?]
      rw [ih (n + 1) j']
      cases as.get? j' <;> simp [Nat.add_comm, Nat.add_assoc, Nat.add_left_comm]

/-! ## Python `int()` on a cleaned-up string

`dns_benchmark` parses `int(parts[-1].replace("ms", ""))`.  Python `int`
strips surrounding whitespace, accepts an optional sign and then decimal
digits (the rarely-used underscore grouping of numeric literals is not
modelled). -/

def digitsVal (ds : List Char) : Nat :=
  ds.foldl (fun acc c => acc * 10 + (c.toNat - '0'.toNat)) 0

def pyInt (cs : List Char) : Option Int :=
  let t := pyStrip cs
  let core : List Char → Option Nat := fun ds =>
    if ds ≠ [] && ds.all isDigitChar then some (digitsVal ds) else none
  match t with
  | '-' :: ds => (core ds).map (fun n => -(n : Int))
  | '+' :: ds => (core ds).map (fun n => (n : Int))
  | ds => (core ds).map (fun n => (n : Int))

/-- Python `s.replace("ms", "")`: remove every (left-to-right,
non-overlapping) occurrence of the two-character sequence `ms`. -/
def removeMsAll : List Char → List Char
  | [] => []
  | 'm' :: 's' :: rest => removeMsAll rest
  | c :: rest => c :: removeMsAll rest

/-! ## delaykiller.py (the "Premium" file) -/

namespace Delaykiller

/-- Outcome of the single `subprocess.Popen` + `communicate` call inside
`delaykiller.py`'s `run_cmd`.  Because that call passes
`stderr=subprocess.STDOUT`, standard error is merged into the one captured
stream, so a completed process carries a single combined output. -/
inductive ProcResult where
  | completed (returncode : Int) (output : String)
  | timedOut
  | failed (msg : String)

/-- Embeds `run_cmd` of src/delaykiller.py (lines 90-99): completed
processes yield `(returncode, out.strip())`; `TimeoutExpired` yields
`(1, "Timed out")`; any other exception yields `(1, str(e))`. -/
def runCmd : ProcResult → Int × String
  | .completed rc out => (rc, pyStripS out)
  | .timedOut => ((1 : Int), "Timed out")
  | .failed e => ((1 : Int), e)

/-- Success test applied to a probe result inside `probe_mtu`:
`code == 0 and "Reply" in out`. -/
def pingOk (res : Int × String) : Bool :=
  res.1 == 0 && containsSub "Reply".data res.2.data

/-- The `while mtu >= min_mtu` loop of `probe_mtu` (src/delaykiller.py lines
179-193), instrumented with the list of payload sizes probed.  The recursion
is made structural by a fuel argument; since `mtu` falls by 10 each
iteration, fuel `start / 10 + 1` is never exhausted. -/
def probe_mtu_go (oracle : Nat → Int × String) : Nat → Nat → Option Nat × List Nat
  | 0, _ => (none, [])
  | fuel + 1, mtu =>
    if mtu < 1200 then (none, [])
    else
      let payload := mtu - 28
      if pingOk (oracle payload) then (some mtu, [payload])
      else
        match probe_mtu_go oracle fuel (mtu - 10) with
        | (r, t) => (r, payload :: t)

/-- Embeds `probe_mtu(target, start=1500, min_mtu=1200)`: returns the
discovered MTU (`last_good`) together with the payload sizes of the probes
actually issued, in order. -/
def probe_mtu (oracle : Nat → Int × String) : Option Nat × List Nat :=
  probe_mtu_go oracle 151 1500

/-- Parse of a single output line inside `dns_benchmark`:
`int(line.replace(" ", "").split("=")[-1].replace("ms", ""))`, with the
`try/except` mapped to `Option`. -/
def parse_avg_line (line : List Char) : Option Int :=
  let noSp := line.filter (fun c => c ≠ ' ')
  let lastPart := noSp.foldl (fun acc c => if c = '=' then [] else acc ++ [c]) []
  pyInt (removeMsAll lastPart)

/-- The per-server line loop of `dns_benchmark` (src/delaykiller.py lines
150-158): `avg` starts as `None` and is overwritten by every line containing
`"Average"` (the `"Average ="` disjunct of the source's condition is
subsumed by the `"Average"` one), so the last such line wins and a line
whose tail fails `int()` resets `avg` to `None`. -/
def avg_of_output (out : String) : Option Int :=
  (splitlines out.data).foldl
    (fun acc line => if containsSub "Average".data line then parse_avg_line line else acc)
    none

/-- Embeds `dns_benchmark(servers, timeout, count)` (src/delaykiller.py
lines 141-161).  The external pings are abstracted into `oracle`, mapping a
server name to the `run_cmd` result for its ping command; the result dict
becomes an insertion-ordered association list. -/
def dns_benchmark (isWin : Bool) (oracle : String → Int × String)
    (servers : List String) : List (String × Option Int) :=
  if isWin = false then
    servers.foldl (fun acc s => dictInsert acc s none) []
  else
    servers.foldl (fun acc s => dictInsert acc s (avg_of_output (oracle s).2)) []

/-- One step of the spec-modelled ranking: keep the lowest determined
latency seen so far, skipping undetermined entries. -/
def bestStep (best : Option (String × Int)) (kv : String × Option Int) :
    Option (String × Int) :=
  match kv.2 with
  | none => best
  | some v =>
    match best with
    | none => some (kv.1, v)
    | some b => if v < b.2 then some (kv.1, v) else best

/-- Modelled from the spec: the repository contains no ranking logic on top
of `dns_benchmark`; the spec requires that "undetermined entries must never
be selected as best by any ranking logic built on top of NetworkProbe".
This is the spec's ranking: pick the entry with the smallest determined
(non-`None`) latency, skipping undetermined entries. -/
def selectBest (results : List (String × Option Int)) : Option String :=
  (results.foldl bestStep none).map (fun b => b.1)

end Delaykiller

/-! ## DelayKillerLite.py -/

namespace DelayKillerLite

/-- Outcome of the `subprocess.run` call inside `DelayKillerLite.py`'s
`run_cmd`; `capture_output=True` keeps standard output and standard error
separate. -/
inductive ProcResult where
  | completed (returncode : Int) (stdout : String) (stderr : String)
  | timedOut
  | failed (msg : String)

/-- Embeds `run_cmd` of src/DelayKillerLite.py (lines 377-389): on
completion, `out = (proc.stdout or "").strip()` with `proc.stderr.strip()`
substituted when that is empty and stderr is non-empty; `TimeoutExpired`
yields `(124, "")`; any other exception yields `(1, str(e))`. -/
def runCmd : ProcResult → Int × String
  | .completed rc out err =>
    if pyStripS out = "" ∧ err ≠ "" then (rc, pyStripS err) else (rc, pyStripS out)
  | .timedOut => ((124 : Int), "")
  | .failed e => ((1 : Int), e)

/-! ### The six `get_tcp_globals` patterns

Each pattern in the source has one of two shapes (always searched with
`re.IGNORECASE` over the `"\n"`-joined lines):

  (Label\s*:\s*)(.+)
  (Label\s*:\s*)(.+)|(\bword\b\s*:\s*(.+))

`re.search` finds the leftmost position where an alternative matches,
trying the first alternative before the second at each position.  In these
patterns the engine is deterministic except in the `\s*(.+)` tail:

  * `\s*` before `:` needs no backtracking because `:` is not whitespace,
    so the greedy whitespace run ends exactly at the candidate `:`;
  * in the tail `\s*(.+)`, the greedy `\s*` first swallows the maximal
    whitespace run; if nothing is left it backs off to the last whitespace
    character that is not `'\n'` (since `.` matches everything but `'\n'`),
    and `(.+)` then captures the maximal newline-free run from there.

The value loop of `get_tcp_globals` then takes the first captured group
after the label group that is non-empty after `.strip()`:

  * first alternative matched: candidate groups are `[value]`;
  * second alternative matched: candidate groups are `[whole, value]`,
    where `whole` is the text of the entire parenthesised alternative. -/

/-- Consume the literal `label` case-insensitively (the effect of
`re.IGNORECASE` on these letters-digits-space-hyphen labels), returning the
rest of the input. -/
def leadCI : List Char → List Char → Option (List Char)
  | [], cs => some cs
  | _ :: _, [] => none
  | l :: ls, c :: cs => if l.toLower == c.toLower then leadCI ls cs else none

/-- Index of the last character of `w` that is not `'\n'`, if any. -/
def lastIdxNonNl : List Char → Option Nat
  | [] => none
  | c :: rest =>
    match lastIdxNonNl rest with
    | some k => some (k + 1)
    | none => if c ≠ '\n' then some 0 else none

/-- The `\s*(.+)` tail, as described above.  Returns the captured group and
the total number of characters consumed from `cs` (whitespace actually kept
by `\s*` plus the capture). -/
def tailCapture (cs : List Char) : Option (List Char × Nat) :=
  let w := cs.takeWhile isPySpace
  let r := cs.drop w.length
  match r with
  | _ :: _ =>
    let cap := r.takeWhile (fun c => c ≠ '\n')
    some (cap, w.length + cap.length)
  | [] =>
    match lastIdxNonNl w with
    | some k =>
      let cap := (w.drop k).takeWhile (fun c => c ≠ '\n')
      some (cap, k + cap.length)
    | none => none

/-- Try the first-shape alternative `(Label\s*:\s*)(.+)` at the current
position; on success return the `(.+)` capture. -/
def matchPrimaryAt (label : List Char) (cs : List Char) : Option (List Char) :=
  match leadCI label cs with
  | none => none
  | some r1 =>
    match r1.dropWhile isPySpace with
    | ':' :: r3 =>
      match tailCapture r3 with
      | some (cap, _) => some cap
      | none => none
    | _ => none

/-- Try the second-shape alternative `(\bword\b\s*:\s*(.+))` at the current
position (`prevWord` says whether the previous character is a word
character, for the leading `\b`); on success return the whole alternative's
text together with the `(.+)` capture. -/
def matchFallbackAt (word : List Char) (prevWord : Bool) (cs : List Char) :
    Option (List Char × List Char) :=
  if prevWord then none
  else
    match leadCI word cs with
    | none => none
    | some r1 =>
      let boundaryAfter := match r1 with
        | [] => true
        | c :: _ => !isWordChar c
      if !boundaryAfter then none
      else
        match r1.dropWhile isPySpace with
        | ':' :: r3 =>
          match tailCapture r3 with
          | some (cap, consumed) =>
            some (cs.take (cs.length - r3.length + consumed), cap)
          | none => none
        | _ => none

/-- One of the six field patterns: a dict key, the primary label, and the
optional `\bword\b` fallback alternative. -/
structure TcpPattern where
  key : String
  main : List Char
  alt : Option (List Char)

/-- Which alternative of a pattern matched, with its captured groups. -/
inductive MatchRes where
  | primary (cap : List Char)
  | fallback (whole : List Char) (cap : List Char)
  deriving DecidableEq

/-- Leftmost `re.search` over the text for one pattern, trying the primary
alternative before the fallback at each position. -/
def searchPatAux (p : TcpPattern) : Bool → List Char → Option MatchRes
  | prevW, cs =>
    match matchPrimaryAt p.main cs with
    | some cap => some (.primary cap)
    | none =>
      match p.alt.bind (fun w => matchFallbackAt w prevW cs) with
      | some (whole, cap) => some (.fallback whole cap)
      | none =>
        match cs with
        | [] => none
        | c :: rest => searchPatAux p (isWordChar c) rest

/-- The `if g and g.strip():` filter of the value loop: keep a group only
when it strips to something non-empty, and store the stripped text. -/
def goodStr (g : List Char) : Option String :=
  if pyStrip g = [] then none else some ⟨pyStrip g⟩

/-- The first usable group of a match, in the group order of the source
patterns: for the primary alternative the only candidate is the value
capture; for the fallback alternative the whole-alternative group precedes
the value capture. -/
def valueOf : MatchRes → Option String
  | .primary cap => goodStr cap
  | .fallback whole cap =>
    match goodStr whole with
    | some v => some v
    | none => goodStr cap

/-- The per-field body of the `for k, pat in patterns.items()` loop of
`get_tcp_globals` (lines 87-96): no match records the key as `None`; a
match records the first usable group; a match whose groups all strip to
empty leaves the key out of the dict entirely. -/
def entryFor (p : TcpPattern) (text : List Char) : List (String × Option String) :=
  match searchPatAux p false text with
  | none => [(p.key, none)]
  | some r =>
    match valueOf r with
    | some v => [(p.key, some v)]
    | none => []

def autotuningPat : TcpPattern :=
  ⟨"autotuninglevel", "Receive Window Auto-Tuning Level".data, none⟩

def ecnPat : TcpPattern :=
  ⟨"ecncapability", "ECN Capability".data, none⟩

def rssPat : TcpPattern :=
  ⟨"rss", "Receive-Side Scaling State".data, some "rss".data⟩

def chimneyPat : TcpPattern :=
  ⟨"chimney", "Chimney Offload State".data, some "chimney".data⟩

def congestionPat : TcpPattern :=
  ⟨"congestionprovider", "Add-On Congestion Control Provider".data, none⟩

def timestampsPat : TcpPattern :=
  ⟨"timestamps", "RFC 1323 Timestamps".data, some "timestamps".data⟩

/-- The `patterns` dict of `get_tcp_globals`, in insertion order. -/
def tcpPatterns : List TcpPattern :=
  [autotuningPat, ecnPat, rssPat, chimneyPat, congestionPat, timestampsPat]

/-- Embeds `get_tcp_globals` (src/DelayKillerLite.py lines 67-97).  The
`netsh interface tcp show global` invocation is abstracted into its
`(code, out)` result; a non-Windows platform, a failing query or empty
output give the empty dict, otherwise each field is matched independently
over the `"\n"`-joined lines. -/
def get_tcp_globals (isWin : Bool) (code : Int) (out : String) :
    List (String × Option String) :=
  if isWin = false then []
  else if code ≠ 0 ∨ out = "" then []
  else
    let text := normalizeLines out.data
    tcpPatterns.flatMap (fun p => entryFor p text)

/-! ### `get_dns_info`: IPv4 extraction and DHCP detection

`servers = re.findall(r"\b\d{1,3}(?:\.\d{1,3}){3}\b", out)` and
`dhcp = bool(re.search(r"\b(DHCP|dhcp)\b", out))` (case-sensitive). -/

/-- Match one octet `\d{1,3}` of the IPv4 pattern at the head of `cs`.
Because a digit can satisfy neither the following `\.` nor the final `\b`,
the greedy `\d{1,3}` with backtracking matches exactly the maximal digit
run, and fails when that run is empty or longer than 3. -/
def octetAt (cs : List Char) : Option (List Char × List Char) :=
  if (cs.takeWhile isDigitChar).length = 0 ∨ 3 < (cs.takeWhile isDigitChar).length then none
  else some (cs.takeWhile isDigitChar, cs.drop (cs.takeWhile isDigitChar).length)

/-- The trailing `\b` of a pattern: the next character (if any) must not be
a word character. -/
def postBoundaryB : List Char → Bool
  | [] => true
  | c :: _ => !isWordChar c

/-- Consume a literal `\.`. -/
def expectDot : List Char → Option (List Char)
  | '.' :: r => some r
  | _ => none

/-- Match `\d{1,3}(?:\.\d{1,3}){3}\b` at the head of `cs` (the leading `\b`
is checked by the caller), returning the matched token and the rest. -/
def matchIPAt (cs : List Char) : Option (List Char × List Char) :=
  (octetAt cs).bind fun p1 =>
  (expectDot p1.2).bind fun r1 =>
  (octetAt r1).bind fun p2 =>
  (expectDot p2.2).bind fun r2 =>
  (octetAt r2).bind fun p3 =>
  (expectDot p3.2).bind fun r3 =>
  (octetAt r3).bind fun p4 =>
  if postBoundaryB p4.2 then
    some (p1.1 ++ '.' :: p2.1 ++ '.' :: p3.1 ++ '.' :: p4.1, p4.2)
  else none

/-- `re.findall` scan for the IPv4 pattern: left to right, non-overlapping,
resuming after each match.  `prevWord` tracks whether the previous character
is a word character (for the leading `\b`); the fuel argument makes the
recursion structural and, starting from the input length, is never
exhausted because every step consumes at least one character. -/
def ipScan : Nat → Bool → List Char → List (List Char)
  | 0, _, _ => []
  | fuel + 1, prevWord, cs =>
    match cs with
    | [] => []
    | c :: rest =>
      match (if prevWord then none else matchIPAt cs) with
      | some (tok, r) => tok :: ipScan fuel true r
      | none => ipScan fuel (isWordChar c) rest

/-- The `re.findall(r"\b\d{1,3}(?:\.\d{1,3}){3}\b", out)` call. -/
def findIPv4 (out : String) : List String :=
  (ipScan out.data.length false out.data).map (fun tok => (⟨tok⟩ : String))

/-- One step of `re.search(r"\b(DHCP|dhcp)\b", out)`: does one of the
(case-sensitive) words of `ws` start here, as a whole word? -/
def wordHitAt (ws : List (List Char)) (cs : List Char) : Bool :=
  ws.any (fun w => startsWith w cs && postBoundaryB (cs.drop w.length))

/-- Scan for a whole-word occurrence of one of `ws`; `prevW` tracks the
word-character status of the previous character for the leading `\b` (every
word in `ws` starts and ends with a word character). -/
def wordScanAux (ws : List (List Char)) : Bool → List Char → Bool
  | prevW, cs =>
    if !prevW && wordHitAt ws cs then true
    else
      match cs with
      | [] => false
      | c :: rest => wordScanAux ws (isWordChar c) rest

/-- Parsed DNS configuration of one interface:
`{"dhcp": bool, "servers": [ips]}`. -/
structure DnsInfo where
  dhcp : Bool
  servers : List String
  deriving Repr, DecidableEq

/-- Embeds `get_dns_info` (src/DelayKillerLite.py lines 99-109), with the
`netsh interface ipv4 show dns` invocation abstracted into its
`(code, out)` result. -/
def get_dns_info (isWin : Bool) (code : Int) (out : String) : DnsInfo :=
  if isWin = false then ⟨false, []⟩
  else if code ≠ 0 ∨ out = "" then ⟨false, []⟩
  else ⟨wordScanAux ["DHCP".data, "dhcp".data] false out.data, findIPv4 out⟩

/-! ### `get_active_power_guid` -/

/-- Consume exactly `n` hexadecimal digits. -/
def takeHex : Nat → List Char → Option (List Char × List Char)
  | 0, cs => some ([], cs)
  | _ + 1, [] => none
  | n + 1, c :: cs =>
    if isHexDigit c then
      match takeHex n cs with
      | some (h, r) => some (c :: h, r)
      | none => none
    else none

/-- Match the GUID pattern `[0-9a-fA-F]{8}(-[0-9a-fA-F]{4}){3}-[0-9a-fA-F]{12}`
at the head of `cs` (the pattern has no boundary anchors). -/
def matchGuidAt (cs : List Char) : Option (List Char) :=
  let seg : Nat → List Char → Option (List Char × List Char) := fun n r =>
    match r with
    | '-' :: r' =>
      match takeHex n r' with
      | some (h, r2) => some ('-' :: h, r2)
      | none => none
    | _ => none
  match takeHex 8 cs with
  | none => none
  | some (h1, r1) =>
    match seg 4 r1 with
    | none => none
    | some (h2, r2) =>
      match seg 4 r2 with
      | none => none
      | some (h3, r3) =>
        match seg 4 r3 with
        | none => none
        | some (h4, r4) =>
          match seg 12 r4 with
          | none => none
          | some (h5, _) => some (h1 ++ h2 ++ h3 ++ h4 ++ h5)

/-- Leftmost search for the GUID pattern. -/
def findGuid : List Char → Option (List Char)
  | [] => none
  | c :: rest =>
    match matchGuidAt (c :: rest) with
    | some g => some g
    | none => findGuid rest

/-- Embeds `get_active_power_guid` (src/DelayKillerLite.py lines 111-116),
with the `powercfg /getactivescheme` invocation abstracted into its
`(code, out)` result. -/
def get_active_power_guid (code : Int) (out : String) : Option String :=
  if code ≠ 0 ∨ out = "" then none
  else (findGuid out.data).map (fun g => (⟨g⟩ : String))


/-! ### Word-boundary token occurrence and IPv4 token shape

Specification-side notions used to characterise `get_dns_info`:
a whole-word occurrence of a token, and the dotted-quad shape of the
extracted server strings. -/

/-- The character after the token, if any, is not a word character. -/
def PostBoundary (post : List Char) : Prop :=
  ∀ c, post.head? = some c → isWordChar c = false

/-- The character before the token, if any, is not a word character; at the
very start of the scan the flag `b` says whether the previous character was
a word character. -/
def PreBoundary (b : Bool) (pre : List Char) : Prop :=
  (pre = [] → b = false) ∧ ∀ c, pre.getLast? = some c → isWordChar c = false

/-- `w` occurs in `cs` as a whole word (both neighbours, if any, are
non-word characters). -/
def TokenOccurs (w cs : List Char) : Prop :=
  ∃ pre post, cs = pre ++ w ++ post ∧ PreBoundary false pre ∧ PostBoundary post

theorem postBoundaryB_iff (post : List Char) :
    postBoundaryB post = true ↔ PostBoundary post := by
  cases post <;> simp [postBoundaryB, PostBoundary]

theorem wordHitAt_iff (ws : List (List Char)) (cs : List Char) :
    wordHitAt ws cs = true ↔ ∃ w ∈ ws, ∃ post, cs = w ++ post ∧ PostBoundary post := by
  unfold wordHitAt
  rw [List.any_eq_true]
  constructor
  · rintro ⟨w, hw, hcond⟩
    rw [Bool.and_eq_true] at hcond
    rcases (startsWith_iff w cs).mp hcond.1 with ⟨post, rfl⟩
    refine ⟨w, hw, post, rfl, ?_⟩
    have hd : (w ++ post).drop w.length = post := List.drop_left w post
    rw [hd] at hcond
    exact (postBoundaryB_iff post).mp hcond.2
  · rintro ⟨w, hw, post, rfl, hpost⟩
    refine ⟨w, hw, ?_⟩
    rw [Bool.and_eq_true]
    refine ⟨(startsWith_iff w (w ++ post)).mpr ⟨post, rfl⟩, ?_⟩
    rw [List.drop_left w post]
    exact (postBoundaryB_iff post).mpr hpost

theorem wordScanAux_iff (ws : List (List Char)) (b : Bool) (cs : List Char) :
    wordScanAux ws b cs = true ↔
      ∃ w ∈ ws, ∃ pre post,
        cs = pre ++ w ++ post ∧ PreBoundary b pre ∧ PostBoundary post := by
  induction cs generalizing b with
  | nil =>
    rw [wordScanAux]
    constructor
    · intro h
      by_cases hc : (!b && wordHitAt ws []) = true
      · rw [Bool.and_eq_true] at hc
        rcases hc with ⟨hb, hhit⟩
        rcases (wordHitAt_iff ws []).mp hhit with ⟨w, hw, post, heq, hpost⟩
        refine ⟨w, hw, [], post, by simpa using heq,
          ⟨fun _ => by simpa using hb, fun c hc' => by simp at hc'⟩, hpost⟩
      · rw [if_neg hc] at h
        cases h
    · rintro ⟨w, hw, pre, post, heq, hpre, hpost⟩
      have h3 : pre ++ (w ++ post) = [] := by
        rw [← List.append_assoc]
        exact heq.symm
      rcases List.append_eq_nil.mp h3 with ⟨hpre0, h4⟩
      rcases List.append_eq_nil.mp h4 with ⟨hw0, hpost0⟩
      have hb : b = false := hpre.1 hpre0
      have hcond : (!b && wordHitAt ws []) = true := by
        rw [hb]
        simp only [Bool.not_false, Bool.true_and]
        refine (wordHitAt_iff ws []).mpr ⟨w, hw, post, ?_, hpost⟩
        rw [hw0, hpost0]
        rfl
      rw [if_pos hcond]
  | cons c rest ih =>
    rw [wordScanAux]
    constructor
    · intro h
      by_cases hc : (!b && wordHitAt ws (c :: rest)) = true
      · rw [Bool.and_eq_true] at hc
        rcases hc with ⟨hb, hhit⟩
        rcases (wordHitAt_iff _ _).mp hhit with ⟨w, hw, post, heq, hpost⟩
        exact ⟨w, hw, [], post, by simpa using heq,
          ⟨fun _ => by simpa using hb, fun c' hc' => by simp at hc'⟩, hpost⟩
      · rw [if_neg hc] at h
        have h2 : wordScanAux ws (isWordChar c) rest = true := h
        rcases (ih (isWordChar c)).mp h2 with ⟨w, hw, pre', post, heq, hpre', hpost⟩
        refine ⟨w, hw, c :: pre', post, ?_, ⟨?_, ?_⟩, hpost⟩
        · simp [heq]
        · intro habs
          cases habs
        intro d hd
        cases pre' with
        | nil =>
          have hdc : d = c := by simpa using hd.symm
          subst hdc
          exact hpre'.1 rfl
        | cons e es =>
          rw [List.getLast?_cons_cons] at hd
          exact hpre'.2 d hd
    · rintro ⟨w, hw, pre, post, heq, hpre, hpost⟩
      by_cases hc : (!b && wordHitAt ws (c :: rest)) = true
      · rw [if_pos hc]
      · rw [if_neg hc]
        show wordScanAux ws (isWordChar c) rest = true
        cases pre with
        | nil =>
          exfalso
          apply hc
          rw [Bool.and_eq_true]
          have hb : b = false := hpre.1 rfl
          refine ⟨by rw [hb]; rfl,
            (wordHitAt_iff _ _).mpr ⟨w, hw, post, by simpa using heq, hpost⟩⟩
        | cons c' pre' =>
          have hsplit : c = c' ∧ rest = pre' ++ w ++ post := by
            simpa using heq
          rcases hsplit with ⟨rfl, hrest⟩
          apply (ih (isWordChar c)).mpr
          refine ⟨w, hw, pre', post, hrest, ⟨?_, ?_⟩, hpost⟩
          · intro hpre'nil
            exact hpre.2 c (by rw [hpre'nil]; simp)
          · intro d hd
            refine hpre.2 d ?_
            cases pre' with
            | nil => exact absurd hd (by simp)
            | cons e es =>
              rw [List.getLast?_cons_cons]
              exact hd

/-- A group of one to three decimal digits (one `\d{1,3}` of the IPv4
pattern). -/
def Octet (o : List Char) : Prop :=
  o ≠ [] ∧ o.length ≤ 3 ∧ ∀ c ∈ o, isDigitChar c = true

/-- A dotted-quad token: four octets separated by dots. -/
def DottedQuad (tok : String) : Prop :=
  ∃ o1 o2 o3 o4,
    tok.data = o1 ++ '.' :: o2 ++ '.' :: o3 ++ '.' :: o4
      ∧ Octet o1 ∧ Octet o2 ∧ Octet o3 ∧ Octet o4

theorem octetAt_spec (cs o r : List Char) (h : octetAt cs = some (o, r)) :
    Octet o := by
  unfold octetAt at h
  by_cases hc : (cs.takeWhile isDigitChar).length = 0 ∨ 3 < (cs.takeWhile isDigitChar).length
  · rw [if_pos hc] at h
    exact Option.noConfusion h
  · rw [if_neg hc] at h
    push_neg at hc
    injection h with h'
    have ho : cs.takeWhile isDigitChar = o := congrArg Prod.fst h'
    subst ho
    refine ⟨?_, by omega, ?_⟩
    · intro hnil
      rw [hnil] at hc
      simp at hc
    · intro d hd
      exact List.mem_takeWhile_imp hd

theorem matchIPAt_spec (cs tok r : List Char) (h : matchIPAt cs = some (tok, r)) :
    ∃ o1 o2 o3 o4,
      tok = o1 ++ '.' :: o2 ++ '.' :: o3 ++ '.' :: o4
        ∧ Octet o1 ∧ Octet o2 ∧ Octet o3 ∧ Octet o4 := by
  unfold matchIPAt at h
  rcases Option.bind_eq_some.mp h with ⟨p1, h1, h⟩
  rcases Option.bind_eq_some.mp h with ⟨r1, hd1, h⟩
  rcases Option.bind_eq_some.mp h with ⟨p2, h2, h⟩
  rcases Option.bind_eq_some.mp h with ⟨r2, hd2, h⟩
  rcases Option.bind_eq_some.mp h with ⟨p3, h3, h⟩
  rcases Option.bind_eq_some.mp h with ⟨r3, hd3, h⟩
  rcases Option.bind_eq_some.mp h with ⟨p4, h4, h⟩
  by_cases hb : postBoundaryB p4.2 = true
  · rw [if_pos hb] at h
    injection h with h'
    have htok : p1.1 ++ '.' :: p2.1 ++ '.' :: p3.1 ++ '.' :: p4.1 = tok :=
      congrArg Prod.fst h'
    exact ⟨p1.1, p2.1, p3.1, p4.1, htok.symm,
      octetAt_spec _ _ _ (by rw [h1]),
      octetAt_spec _ _ _ (by rw [h2]),
      octetAt_spec _ _ _ (by rw [h3]),
      octetAt_spec _ _ _ (by rw [h4])⟩
  · rw [if_neg hb] at h
    exact Option.noConfusion h

theorem ipScan_sound (fuel : Nat) :
    ∀ (prevW : Bool) (cs tok : List Char), tok ∈ ipScan fuel prevW cs →
      ∃ o1 o2 o3 o4,
        tok = o1 ++ '.' :: o2 ++ '.' :: o3 ++ '.' :: o4
          ∧ Octet o1 ∧ Octet o2 ∧ Octet o3 ∧ Octet o4 := by
  induction fuel with
  | zero =>
    intro prevW cs tok h
    cases h
  | succ f ih =>
    intro prevW cs tok h
    cases cs with
    | nil => cases h
    | cons c rest =>
      cases prevW with
      | true =>
        exact ih _ _ _ h
      | false =>
        have h' : tok ∈ (match matchIPAt (c :: rest) with
            | some (tk, r) => tk :: ipScan f true r
            | none => ipScan f (isWordChar c) rest) := h
        cases hm : matchIPAt (c :: rest) with
        | none =>
          rw [hm] at h'
          exact ih _ _ _ h'
        | some pr =>
          rcases pr with ⟨tk, r⟩
          rw [hm] at h'
          rcases List.mem_cons.mp h' with h'' | h''
          · subst h''
            exact matchIPAt_spec _ _ _ hm
          · exact ih _ _ _ h''

theorem findIPv4_sound (out : String) (tok : String) (h : tok ∈ findIPv4 out) :
    DottedQuad tok := by
  unfold findIPv4 at h
  rcases List.mem_map.mp h with ⟨l, hl, rfl⟩
  rcases ipScan_sound _ _ _ _ hl with ⟨o1, o2, o3, o4, rfl, h1, h2, h3, h4⟩
  exact ⟨o1, o2, o3, o4, rfl, h1, h2, h3, h4⟩

/-! ### The snapshot and `restore_from_backup`

The snapshot file holds `{"tcp_globals": ..., "dns": ..., "power": ...,
"timestamp": ...}`; `restore_from_backup` ignores `timestamp`, so it is not
modelled.  Commands issued through `run_netsh`/`run_cmd` are collected as a
trace of literal command strings; all of the strings built here start with
`netsh` or go through `run_cmd` directly, so `run_netsh`'s prefixing branch
never alters them. -/

structure Snapshot where
  tcp_globals : List (String × Option String)
  dns : List (String × DnsInfo)
  power : Option String

/-- The `mapping` dict of `restore_from_backup` (lines 144-151): per-key
command template.  The `timestamps` template contains the dead
`v if v else "enabled"` fallback, dead because the loop only calls the
template for truthy `v`. -/
def tcpSetTemplate : String → Option (String → String)
  | "autotuninglevel" =>
    some (fun v => "netsh interface tcp set global autotuninglevel=" ++ v)
  | "ecncapability" =>
    some (fun v => "netsh interface tcp set global ecncapability=" ++ v)
  | "rss" =>
    some (fun v => "netsh interface tcp set global rss=" ++ v)
  | "chimney" =>
    some (fun v => "netsh interface tcp set global chimney=" ++ v)
  | "congestionprovider" =>
    some (fun v => "netsh interface tcp set global congestionprovider=" ++ v)
  | "timestamps" =>
    some (fun v => "netsh interface tcp set global timestamps=" ++
      (if v ≠ "" then v else "enabled"))
  | _ => none

/-- The TCP part of `restore_from_backup` (lines 152-156): for each entry in
insertion order, a truthy value (`if v:` - present and non-empty) whose key
is in the template mapping produces exactly one command; falsy values and
unmapped keys are skipped. -/
def restoreTcpCmds : List (String × Option String) → List String
  | [] => []
  | (_, none) :: rest => restoreTcpCmds rest
  | (k, some v) :: rest =>
    if v = "" then restoreTcpCmds rest
    else
      match tcpSetTemplate k with
      | some t => t v :: restoreTcpCmds rest
      | none => restoreTcpCmds rest

/-- The same loop instrumented as `(field, replayed value)` pairs; used to
state which field each issued command sets and with which value. -/
def restoreTcpPairs : List (String × Option String) → List (String × String)
  | [] => []
  | (_, none) :: rest => restoreTcpPairs rest
  | (k, some v) :: rest =>
    if v = "" then restoreTcpPairs rest
    else
      match tcpSetTemplate k with
      | some _ => (k, v) :: restoreTcpPairs rest
      | none => restoreTcpPairs rest

/-- The command string issued for one `(field, value)` pair. -/
def cmdOfPair (p : String × String) : String :=
  match tcpSetTemplate p.1 with
  | some t => t p.2
  | none => ""

def dnsDhcpCmd (iface : String) : String :=
  "netsh interface ipv4 set dns name=\"" ++ iface ++ "\" source=dhcp"

def dnsStaticCmd (iface s : String) : String :=
  "netsh interface ipv4 set dns name=\"" ++ iface ++ "\" static " ++ s ++ " primary"

def dnsAddCmd (iface : String) (idx : Nat) (s : String) : String :=
  "netsh interface ipv4 add dns name=\"" ++ iface ++ "\" " ++ s ++ " index=" ++ toString idx

/-- The per-interface body of the DNS loop of `restore_from_backup` (lines
159-169): an empty interface name is skipped (`if not iface: continue`);
`dhcp` true issues only the `source=dhcp` command; otherwise a non-empty
server list issues the static-primary command for the first server and one
`add dns` per remaining server with `enumerate(..., start=2)` indices. -/
def restoreDnsEntry (iface : String) (info : DnsInfo) : List String :=
  if iface = "" then []
  else if info.dhcp then [dnsDhcpCmd iface]
  else
    match info.servers with
    | [] => []
    | s0 :: rest =>
      dnsStaticCmd iface s0 :: (enumFrom 2 rest).map (fun p => dnsAddCmd iface p.1 p.2)

def restoreDnsCmds (dns : List (String × DnsInfo)) : List String :=
  dns.flatMap (fun e => restoreDnsEntry e.1 e.2)

/-- The power part of `restore_from_backup` (lines 171-173): issued only for
a truthy stored scheme. -/
def powerRestoreCmds : Option String → List String
  | some g => if g = "" then [] else ["powercfg /setactive " ++ g]
  | none => []

/-- Embeds `restore_from_backup` (src/DelayKillerLite.py lines 134-178) as
`(returned flag, issued command trace)`.  `backupExists` models
`BACKUP_FILE.exists()`; `loadOk` models whether `open`/`json.load`
succeeds - that failure is raised before any command is issued and is
caught by the function's own `try/except`, which returns `False`. -/
def restore_from_backup (backupExists loadOk : Bool) (snap : Snapshot) :
    Bool × List String :=
  if backupExists = false then (false, [])
  else if loadOk = false then (false, [])
  else
    (true,
      restoreTcpCmds snap.tcp_globals ++ restoreDnsCmds snap.dns ++
        powerRestoreCmds snap.power)

/-! ### `backup_settings` and `apply_tcp_tweaks` over an explicit world -/

/-- The ambient state that `backup_settings` / `apply_tcp_tweaks` interact
with: the platform flag, the snapshot file (existence, contents,
readability), whether some step inside `backup_settings` raises (all such
exceptions are caught there), the interface name the backup captures, and
the text results of the three read-only probe queries. -/
structure World where
  isWindows : Bool
  backupExists : Bool
  snapshot : Snapshot
  loadOk : Bool
  backupRaises : Bool
  iface : String
  tcpQuery : Int × String
  dnsQuery : Int × String
  powerQuery : Int × String

/-- Embeds `backup_settings` (src/DelayKillerLite.py lines 118-132): on any
internal exception the `except` branch logs and returns `False` (the file
is then taken as unchanged); otherwise the three probes are re-run and
their results overwrite the single snapshot file, and `True` is returned. -/
def backup_settings (w : World) : Bool × World :=
  if w.backupRaises = true then (false, w)
  else
    let snap : Snapshot :=
      { tcp_globals := get_tcp_globals w.isWindows w.tcpQuery.1 w.tcpQuery.2
        dns := [(w.iface, get_dns_info w.isWindows w.dnsQuery.1 w.dnsQuery.2)]
        power := get_active_power_guid w.powerQuery.1 w.powerQuery.2 }
    (true, { w with backupExists := true, snapshot := snap, loadOk := true })

/-- The fixed `enable=True` command sequence of `apply_tcp_tweaks`. -/
def tcpOnCmds : List String :=
  [ "netsh interface tcp set global autotuninglevel=normal"
  , "netsh interface tcp set global ecncapability=enabled"
  , "netsh interface tcp set global rss=enabled"
  , "netsh interface tcp set global chimney=disabled" ]

/-- The hardcoded `enable=False` fallback sequence of `apply_tcp_tweaks`. -/
def tcpOffDefaultCmds : List String :=
  [ "netsh interface tcp set global autotuninglevel=normal"
  , "netsh interface tcp set global ecncapability=default"
  , "netsh interface tcp set global rss=default"
  , "netsh interface tcp set global chimney=disabled" ]

/-- Embeds `apply_tcp_tweaks(enable, backup=True)` (src/DelayKillerLite.py
lines 183-205) as `((result code, message), mutating command trace)`.  The
trace records the `netsh ... set`/restore commands; `backup_settings` itself
only issues read-only queries and file writes, which are reflected in the
returned world inside the function body. -/
def apply_tcp_tweaks (w : World) (enable backup : Bool) : (Int × String) × List String :=
  if w.isWindows = false then (((1 : Int), "Unsupported"), [])
  else
    let w1 := if backup = true then (backup_settings w).2 else w
    if enable = true then (((0 : Int), "TCP tweaks applied"), tcpOnCmds)
    else
      if w1.backupExists = true then
        let r := restore_from_backup w1.backupExists w1.loadOk w1.snapshot
        if r.1 = true then (((0 : Int), "TCP tweaks restored from backup"), r.2)
        else (((0 : Int), "TCP tweaks applied"), r.2 ++ tcpOffDefaultCmds)
      else (((0 : Int), "TCP tweaks applied"), tcpOffDefaultCmds)

/-! ### Interpreting the replayed TCP commands

Each command `netsh interface tcp set global field=value` sets exactly the
named global to the given literal; a system TCP state is a map from field
name to its current value string. -/

/-- Effect of one `(field, value)` set command on the system state. -/
def applySet (st : String → String) (p : String × String) : String → String :=
  fun f => if f = p.1 then p.2 else st f

/-- Effect of a command sequence, first to last. -/
def execTcp (st : String → String) (ps : List (String × String)) : String → String :=
  ps.foldl applySet st

/-- The value recorded for field `k` in a captured record: `some v` when the
key is present with a non-absent value, `none` otherwise. -/
def lookupVal (k : String) (tcp : List (String × Option String)) : Option String :=
  match tcp.find? (fun kv => kv.1 == k) with
  | some kv => kv.2
  | none => none

/-! ### Structural facts about probe records and the restore loop -/

/-- Records as produced by `get_tcp_globals`: keys are pairwise distinct,
every key has a command template, and present values are non-empty. -/
def GoodRecord (tcp : List (String × Option String)) : Prop :=
  tcp.Pairwise (fun a b => a.1 ≠ b.1) ∧
    ∀ kv ∈ tcp, (tcpSetTemplate kv.1).isSome ∧ ∀ v, kv.2 = some v → v ≠ ""

theorem mkString_ne_empty (s : List Char) (h : s ≠ []) : (⟨s⟩ : String) ≠ "" := by
  intro hc
  exact h (congrArg String.data hc)

theorem goodStr_ne_empty (g : List Char) (v : String) (h : goodStr g = some v) :
    v ≠ "" := by
  unfold goodStr at h
  by_cases hs : pyStrip g = []
  · rw [if_pos hs] at h; cases h
  · rw [if_neg hs] at h
    cases h
    exact mkString_ne_empty _ hs

theorem valueOf_ne_empty (r : MatchRes) (v : String) (h : valueOf r = some v) :
    v ≠ "" := by
  cases r with
  | primary cap => exact goodStr_ne_empty cap v h
  | fallback whole cap =>
    have h2 : (match goodStr whole with
        | some x => some x
        | none => goodStr cap) = some v := h
    cases hw : goodStr whole with
    | some v2 =>
      rw [hw] at h2
      cases h2
      exact goodStr_ne_empty whole v hw
    | none =>
      rw [hw] at h2
      exact goodStr_ne_empty cap v h2

theorem entryFor_search (p : TcpPattern) (text : List Char) (r : MatchRes)
    (hr : searchPatAux p false text = some r) :
    entryFor p text = (match valueOf r with
      | some v => [(p.key, some v)]
      | none => ([] : List (String × Option String))) := by
  unfold entryFor
  rw [hr]

theorem entryFor_shape (p : TcpPattern) (text : List Char) :
    entryFor p text = [] ∨ ∃ ov, entryFor p text = [(p.key, ov)] := by
  cases hs : searchPatAux p false text with
  | none =>
    unfold entryFor
    rw [hs]
    exact Or.inr ⟨none, rfl⟩
  | some r =>
    rw [entryFor_search p text r hs]
    cases hv : valueOf r with
    | none => exact Or.inl rfl
    | some v => exact Or.inr ⟨some v, rfl⟩

theorem entryFor_mem (p : TcpPattern) (text : List Char)
    (e : String × Option String) (he : e ∈ entryFor p text) :
    e.1 = p.key ∧ ∀ v, e.2 = some v → v ≠ "" := by
  unfold entryFor at he
  cases hs : searchPatAux p false text with
  | none =>
    rw [hs] at he
    have h1 : e = (p.key, none) := List.mem_singleton.mp he
    subst h1
    exact ⟨rfl, by intro v hv; cases hv⟩
  | some r =>
    rw [hs] at he
    have he2 : e ∈ (match valueOf r with
        | some v => [(p.key, some v)]
        | none => ([] : List (String × Option String))) := he
    cases hv : valueOf r with
    | none => rw [hv] at he2; cases he2
    | some v =>
      rw [hv] at he2
      have h1 : e = (p.key, some v) := List.mem_singleton.mp he2
      subst h1
      refine ⟨rfl, ?_⟩
      intro v2 hv2
      have hv2' : v = v2 := by injection hv2
      subst hv2'
      exact valueOf_ne_empty r v hv

theorem tcpPatterns_template : ∀ p ∈ tcpPatterns, (tcpSetTemplate p.key).isSome := by
  decide

theorem tcpPatterns_keys_distinct :
    tcpPatterns.Pairwise (fun a b => a.key ≠ b.key) := by
  decide

theorem entries_pairwise (ps : List TcpPattern) (text : List Char)
    (hp : ps.Pairwise (fun a b => a.key ≠ b.key)) :
    (ps.flatMap (fun p => entryFor p text)).Pairwise (fun a b => a.1 ≠ b.1) := by
  induction ps with
  | nil => simp
  | cons p rest ih =>
    rw [List.flatMap_cons, List.pairwise_append]
    refine ⟨?_, ih (List.Pairwise.of_cons hp), ?_⟩
    · rcases entryFor_shape p text with h | ⟨ov, h⟩ <;> rw [h]
      · exact List.Pairwise.nil
      · exact List.pairwise_singleton _ _
    · intro a ha b hb
      have ha1 := (entryFor_mem p text a ha).1
      rcases List.mem_flatMap.mp hb with ⟨q, hq, hbq⟩
      have hb1 := (entryFor_mem q text b hbq).1
      rw [ha1, hb1]
      exact List.rel_of_pairwise_cons hp hq

theorem good_get_tcp_globals (isWin : Bool) (code : Int) (out : String) :
    GoodRecord (get_tcp_globals isWin code out) := by
  have hnil : GoodRecord [] := ⟨List.Pairwise.nil, by intro kv hkv; cases hkv⟩
  cases isWin with
  | false => simpa [get_tcp_globals] using hnil
  | true =>
    by_cases hc : code ≠ 0 ∨ out = ""
    · simpa [get_tcp_globals, hc] using hnil
    · rw [get_tcp_globals, if_neg (by simp), if_neg hc]
      constructor
      · exact entries_pairwise _ _ tcpPatterns_keys_distinct
      · intro kv hkv
        rcases List.mem_flatMap.mp hkv with ⟨q, hq, hkq⟩
        have h3 := entryFor_mem q _ kv hkq
        exact ⟨h3.1 ▸ tcpPatterns_template q hq, h3.2⟩


theorem restoreTcpPairs_mem (tcp : List (String × Option String)) (p : String × String)
    (hp : p ∈ restoreTcpPairs tcp) :
    ∃ kv ∈ tcp, kv.1 = p.1 ∧ kv.2 = some p.2 ∧ p.2 ≠ "" ∧ (tcpSetTemplate p.1).isSome := by
  induction tcp with
  | nil => cases hp
  | cons kv rest ih =>
    rcases kv with ⟨k0, v0⟩
    cases v0 with
    | none =>
      rcases ih hp with ⟨kv, hkv, hrest⟩
      exact ⟨kv, List.mem_cons_of_mem _ hkv, hrest⟩
    | some v =>
      by_cases hv : v = ""
      · rw [restoreTcpPairs, if_pos hv] at hp
        rcases ih hp with ⟨kv, hkv, hrest⟩
        exact ⟨kv, List.mem_cons_of_mem _ hkv, hrest⟩
      · rw [restoreTcpPairs, if_neg hv] at hp
        cases ht : tcpSetTemplate k0 with
        | none =>
          rw [ht] at hp
          rcases ih hp with ⟨kv, hkv, hrest⟩
          exact ⟨kv, List.mem_cons_of_mem _ hkv, hrest⟩
        | some t =>
          rw [ht] at hp
          rcases List.mem_cons.mp hp with h | h
          · subst h
            exact ⟨(k0, some v), List.mem_cons_self _ _, rfl, rfl, hv, by rw [ht]; rfl⟩
          · rcases ih h with ⟨kv, hkv, hrest⟩
            exact ⟨kv, List.mem_cons_of_mem _ hkv, hrest⟩

theorem execTcp_of_no_key (ps : List (String × String)) (st : String → String)
    (k : String) (h : ∀ p ∈ ps, p.1 ≠ k) : execTcp st ps k = st k := by
  induction ps generalizing st with
  | nil => rfl
  | cons q ps ih =>
    have hq : q.1 ≠ k := h q (List.mem_cons_self q ps)
    have step : execTcp st (q :: ps) k = execTcp (applySet st q) ps k := rfl
    rw [step, ih (applySet st q) (fun p hp => h p (List.mem_cons_of_mem q hp))]
    unfold applySet
    rw [if_neg (fun hk => hq hk.symm)]

theorem find_eq_of_mem_nodup (tcp : List (String × Option String))
    (hnd : tcp.Pairwise (fun a b => a.1 ≠ b.1)) (kv : String × Option String)
    (hm : kv ∈ tcp) : tcp.find? (fun x => x.1 == kv.1) = some kv := by
  induction tcp with
  | nil => cases hm
  | cons a l ih =>
    rcases List.mem_cons.mp hm with h | h
    · subst h
      rw [List.find?_cons_of_pos _ (by simp)]
    · have hne : a.1 ≠ kv.1 := List.rel_of_pairwise_cons hnd h
      rw [List.find?_cons_of_neg _ (by simpa using hne)]
      exact ih (List.Pairwise.of_cons hnd) h

theorem restoreTcpPairs_keys (tcp : List (String × Option String)) (k : String)
    (hk : lookupVal k tcp = none)
    (hnd : tcp.Pairwise (fun a b => a.1 ≠ b.1)) :
    ∀ p ∈ restoreTcpPairs tcp, p.1 ≠ k := by
  intro p hp hpk
  rcases restoreTcpPairs_mem tcp p hp with ⟨kv, hkv, hk1, hk2, -, -⟩
  have hfind := find_eq_of_mem_nodup tcp hnd kv hkv
  unfold lookupVal at hk
  rw [hk1, hpk] at hfind
  rw [hfind] at hk
  have hk' : kv.2 = none := hk
  rw [hk2] at hk'
  exact Option.noConfusion hk' 

theorem exec_restore_lookup (tcp : List (String × Option String))
    (hg : GoodRecord tcp) (st : String → String) (k : String) :
    execTcp st (restoreTcpPairs tcp) k = (lookupVal k tcp).getD (st k) := by
  revert hg
  induction tcp generalizing st with
  | nil => intro hg; rfl
  | cons kv rest ih =>
    intro hg
    rcases hg with ⟨hnd, hvals⟩
    have hrest_nd := List.Pairwise.of_cons hnd
    have hrest_vals : ∀ x ∈ rest, (tcpSetTemplate x.1).isSome ∧
        ∀ v, x.2 = some v → v ≠ "" :=
      fun x hx => hvals x (List.mem_cons_of_mem kv hx)
    have hkeys : ∀ b ∈ rest, kv.1 ≠ b.1 := fun b hb =>
      List.rel_of_pairwise_cons hnd hb
    have hpairs_rest_ne : ∀ p ∈ restoreTcpPairs rest, p.1 ≠ kv.1 := by
      intro p hp
      rcases restoreTcpPairs_mem rest p hp with ⟨x, hx, hx1, -, -, -⟩
      rw [← hx1]
      exact fun hc => hkeys x hx hc.symm
    rcases kv with ⟨k0, v0⟩
    cases v0 with
    | none =>
      rw [show restoreTcpPairs ((k0, none) :: rest) = restoreTcpPairs rest from rfl]
      by_cases hk : k0 = k
      · subst hk
        have h1 : lookupVal k0 ((k0, none) :: rest) = none := by
          unfold lookupVal
          rw [List.find?_cons_of_pos _ (by simp)]
        rw [h1]
        exact execTcp_of_no_key _ _ _ (fun p hp => hpairs_rest_ne p hp)
      · have h1 : lookupVal k ((k0, none) :: rest) = lookupVal k rest := by
          unfold lookupVal
          rw [List.find?_cons_of_neg _ (by simpa using hk)]
        rw [h1]
        exact ih st ⟨hrest_nd, hrest_vals⟩
    | some v =>
      have hv : v ≠ "" := (hvals (k0, some v) (List.mem_cons_self _ _)).2 v rfl
      have htpl := (hvals (k0, some v) (List.mem_cons_self _ _)).1
      rcases ht : tcpSetTemplate k0 with - | t
      · rw [ht] at htpl; simp at htpl
      · have hps : restoreTcpPairs ((k0, some v) :: rest)
            = (k0, v) :: restoreTcpPairs rest := by
          rw [restoreTcpPairs, if_neg hv, ht]
        rw [hps]
        have hstep : execTcp st ((k0, v) :: restoreTcpPairs rest) k
            = execTcp (applySet st (k0, v)) (restoreTcpPairs rest) k := rfl
        rw [hstep]
        by_cases hk : k0 = k
        · subst hk
          have h1 : lookupVal k0 ((k0, some v) :: rest) = some v := by
            unfold lookupVal
            rw [List.find?_cons_of_pos _ (by simp)]
          rw [h1]
          rw [execTcp_of_no_key _ _ _ (fun p hp => hpairs_rest_ne p hp)]
          unfold applySet
          rw [if_pos rfl]
          rfl
        · have h1 : lookupVal k ((k0, some v) :: rest) = lookupVal k rest := by
            unfold lookupVal
            rw [List.find?_cons_of_neg _ (by simpa using hk)]
          rw [h1]
          rw [ih (applySet st (k0, v)) ⟨hrest_nd, hrest_vals⟩]
          have : applySet st (k0, v) k = st k := by
            unfold applySet
            rw [if_neg (fun hc => hk hc.symm)]
          rw [this]

theorem restoreTcpCmds_eq_pairs (tcp : List (String × Option String)) :
    restoreTcpCmds tcp = (restoreTcpPairs tcp).map cmdOfPair := by
  induction tcp with
  | nil => rfl
  | cons kv rest ih =>
    rcases kv with ⟨k0, v0⟩
    cases v0 with
    | none =>
      rw [show restoreTcpCmds ((k0, none) :: rest) = restoreTcpCmds rest from rfl,
        show restoreTcpPairs ((k0, none) :: rest) = restoreTcpPairs rest from rfl]
      exact ih
    | some v =>
      by_cases hv : v = ""
      · rw [restoreTcpCmds, restoreTcpPairs, if_pos hv, if_pos hv]
        exact ih
      · cases ht : tcpSetTemplate k0 with
        | none =>
          rw [restoreTcpCmds, restoreTcpPairs, if_neg hv, if_neg hv, ht]
          exact ih
        | some t =>
          rw [restoreTcpCmds, restoreTcpPairs, if_neg hv, if_neg hv, ht,
            List.map_cons, ih]
          have hcmd : cmdOfPair (k0, v) = t v := by
            unfold cmdOfPair
            rw [ht]
          rw [hcmd]

theorem tcpSetTemplate_shape (k : String) (t : String → String)
    (ht : tcpSetTemplate k = some t) (v : String) (hv : v ≠ "") :
    t v = "netsh interface tcp set global " ++ k ++ "=" ++ v := by
  unfold tcpSetTemplate at ht
  split at ht <;>
    first
      | exact Option.noConfusion ht
      | (injection ht with ht'
         subst ht'
         first
           | rfl
           | (show _ ++ (if v ≠ "" then v else "enabled") = _
              rw [if_pos hv]
              rfl))

end DelayKillerLite



/-! ### Dict-insert bookkeeping for the benchmark results -/

theorem lookupA_dictInsert_self {α : Type} (m : List (String × α)) (k : String) (v : α) :
    lookupA (dictInsert m k v) k = some v := by
  induction m with
  | nil => simp [dictInsert, lookupA]
  | cons a rest ih =>
    by_cases h : a.1 = k
    · simp [dictInsert, h, lookupA]
    · simp only [dictInsert, if_neg h]
      unfold lookupA
      rw [List.find?_cons_of_neg _ (by simpa using h)]
      unfold lookupA at ih
      exact ih

theorem lookupA_dictInsert_ne {α : Type} (m : List (String × α)) (k : String)
    (v : α) (s : String) (h : s ≠ k) :
    lookupA (dictInsert m k v) s = lookupA m s := by
  induction m with
  | nil =>
    unfold dictInsert lookupA
    rw [List.find?_cons_of_neg _ (by simpa using fun hc => h hc.symm)]
  | cons a rest ih =>
    by_cases ha : a.1 = k
    · simp only [dictInsert, if_pos ha]
      unfold lookupA
      have hne : ¬(a.1 == s) = true := by
        simp only [beq_iff_eq]
        intro hc
        exact h (by rw [← hc, ha])
      have e1 : List.find? (fun kv : String × α => kv.1 == s) ((a.1, v) :: rest)
          = List.find? (fun kv : String × α => kv.1 == s) rest :=
        List.find?_cons_of_neg rest hne
      have e2 : List.find? (fun kv : String × α => kv.1 == s) (a :: rest)
          = List.find? (fun kv : String × α => kv.1 == s) rest :=
        List.find?_cons_of_neg rest hne
      rw [e1, e2]
    · simp only [dictInsert, if_neg ha]
      by_cases has : a.1 = s
      · unfold lookupA
        have e1 : List.find? (fun kv : String × α => kv.1 == s) (a :: dictInsert rest k v)
            = some a :=
          List.find?_cons_of_pos _ (by simpa using has)
        have e2 : List.find? (fun kv : String × α => kv.1 == s) (a :: rest) = some a :=
          List.find?_cons_of_pos _ (by simpa using has)
        rw [e1, e2]
      · unfold lookupA
        have e1 : List.find? (fun kv : String × α => kv.1 == s) (a :: dictInsert rest k v)
            = List.find? (fun kv : String × α => kv.1 == s) (dictInsert rest k v) :=
          List.find?_cons_of_neg _ (by simpa using has)
        have e2 : List.find? (fun kv : String × α => kv.1 == s) (a :: rest)
            = List.find? (fun kv : String × α => kv.1 == s) rest :=
          List.find?_cons_of_neg _ (by simpa using has)
        rw [e1, e2]
        unfold lookupA at ih
        exact ih

theorem fold_lookup (f : String → Option Int) (servers : List String) (s : String) :
    ∀ acc : List (String × Option Int),
      (lookupA acc s = some (f s) ∨ s ∈ servers) →
      lookupA (servers.foldl (fun acc x => dictInsert acc x (f x)) acc) s
        = some (f s) := by
  induction servers with
  | nil =>
    intro acc h
    rcases h with h | h
    · exact h
    · cases h
  | cons a rest ih =>
    intro acc h
    rw [List.foldl_cons]
    apply ih
    rcases h with h | h
    · left
      by_cases has : s = a
      · subst has
        rw [lookupA_dictInsert_self]
      · rw [lookupA_dictInsert_ne _ _ _ _ has]
        exact h
    · rcases List.mem_cons.mp h with h | h
      · subst h
        left
        rw [lookupA_dictInsert_self]
      · right
        exact h

/-! ### The spec-modelled ranking never picks an undetermined entry -/

theorem fold_best (l : List (String × Option Int)) :
    ∀ (acc : Option (String × Int)) (b : String × Int),
      l.foldl Delaykiller.bestStep acc = some b →
      acc = some b ∨ (b.1, some b.2) ∈ l := by
  induction l with
  | nil =>
    intro acc b h
    exact Or.inl h
  | cons kv rest ih =>
    intro acc b h
    rw [List.foldl_cons] at h
    rcases ih _ _ h with h2 | h2
    · unfold Delaykiller.bestStep at h2
      rcases hkv : kv.2 with - | v
      · rw [hkv] at h2
        exact Or.inl h2
      · rw [hkv] at h2
        rcases hacc : acc with - | a
        · rw [hacc] at h2
          injection h2 with h3
          right
          subst h3
          have hkveq : ((kv.1, v).1, some (kv.1, v).2) = kv := by rw [← hkv]
          exact hkveq ▸ List.mem_cons_self kv rest
        · rw [hacc] at h2
          have h2' : (if v < a.2 then some (kv.1, v) else some a) = some b := h2
          by_cases hlt : v < a.2
          · rw [if_pos hlt] at h2'
            injection h2' with h3
            right
            subst h3
            have hkveq : ((kv.1, v).1, some (kv.1, v).2) = kv := by rw [← hkv]
            exact hkveq ▸ List.mem_cons_self kv rest
          · rw [if_neg hlt] at h2'
            left
            exact h2'

    · exact Or.inr (List.mem_cons_of_mem _ h2)

theorem selectBest_spec (results : List (String × Option Int)) (t : String)
    (h : Delaykiller.selectBest results = some t) : ∃ v, (t, some v) ∈ results := by
  unfold Delaykiller.selectBest at h
  rcases Option.map_eq_some'.mp h with ⟨b, hb, hbt⟩
  rcases fold_best results none b hb with h2 | h2
  · exact Option.noConfusion h2
  · exact ⟨b.2, hbt ▸ h2⟩

theorem flatMap_singleton_map {α β : Type} (l : List α) (f : α → List β) (g : α → β)
    (h : ∀ x ∈ l, f x = [g x]) : l.flatMap f = l.map g := by
  induction l with
  | nil => rfl
  | cons a rest ih =>
    rw [List.flatMap_cons, h a (List.mem_cons_self a rest), List.map_cons,
      ih (fun x hx => h x (List.mem_cons_of_mem a hx))]
    rfl

/-! ## Sample utility outputs used by concrete witnesses -/

/-- A netsh-style `show global` output whose ECN line is entirely missing
while the other five field lines are present. -/
def sampleTcpNoEcn : String :=
  "TCP Global Parameters\n----------------------------------------------\nReceive-Side Scaling State          : enabled\nChimney Offload State               : disabled\nReceive Window Auto-Tuning Level    : normal\nAdd-On Congestion Control Provider  : none\nRFC 1323 Timestamps                 : disabled"

/-! ## Claims -/

/-- C1: Round-trip restore.  For any settings record produced by the state
probe (over any query result), replaying the TCP restore commands on any
prior system state (a) leaves every field at the captured value when one
was captured and at its prior value otherwise, (b) issues exactly the
commands of the instrumented pair list, (c) each command replays the
captured value verbatim as `netsh interface tcp set global field=value`,
(d) issues no command at all for a field recorded as absent, and (e) a
capture (`backup_settings`) followed by `apply(enable=false)` indeed takes
the restore path and replays exactly the captured record. -/
theorem claim1_tcp_restore_roundtrip (isWin : Bool) (qc : Int) (out : String)
    (st : String → String) (k : String) :
    DelayKillerLite.execTcp st
        (DelayKillerLite.restoreTcpPairs (DelayKillerLite.get_tcp_globals isWin qc out)) k
      = (DelayKillerLite.lookupVal k (DelayKillerLite.get_tcp_globals isWin qc out)).getD (st k)
    ∧ DelayKillerLite.restoreTcpCmds (DelayKillerLite.get_tcp_globals isWin qc out)
      = (DelayKillerLite.restoreTcpPairs (DelayKillerLite.get_tcp_globals isWin qc out)).map
          DelayKillerLite.cmdOfPair
    ∧ (∀ p ∈ DelayKillerLite.restoreTcpPairs (DelayKillerLite.get_tcp_globals isWin qc out),
        DelayKillerLite.cmdOfPair p = "netsh interface tcp set global " ++ p.1 ++ "=" ++ p.2)
    ∧ (DelayKillerLite.lookupVal k (DelayKillerLite.get_tcp_globals isWin qc out) = none →
        ∀ p ∈ DelayKillerLite.restoreTcpPairs (DelayKillerLite.get_tcp_globals isWin qc out),
          p.1 ≠ k)
    ∧ (∀ w : DelayKillerLite.World, w.isWindows = true → w.backupRaises = false →
        DelayKillerLite.apply_tcp_tweaks w false true
          = ((0, "TCP tweaks restored from backup"),
             DelayKillerLite.restoreTcpCmds
                (DelayKillerLite.get_tcp_globals w.isWindows w.tcpQuery.1 w.tcpQuery.2)
              ++ DelayKillerLite.restoreDnsCmds
                  [(w.iface, DelayKillerLite.get_dns_info w.isWindows w.dnsQuery.1 w.dnsQuery.2)]
              ++ DelayKillerLite.powerRestoreCmds
                  (DelayKillerLite.get_active_power_guid w.powerQuery.1 w.powerQuery.2))) := by
  have hg := DelayKillerLite.good_get_tcp_globals isWin qc out
  refine ⟨DelayKillerLite.exec_restore_lookup _ hg st k,
    DelayKillerLite.restoreTcpCmds_eq_pairs _, ?_, ?_, ?_⟩
  · intro p hp
    rcases DelayKillerLite.restoreTcpPairs_mem _ p hp with ⟨kv, hkv, -, -, hv, htpl⟩
    rcases ht : DelayKillerLite.tcpSetTemplate p.1 with - | t
    · rw [ht] at htpl; simp at htpl
    · have hshape := DelayKillerLite.tcpSetTemplate_shape p.1 t ht p.2 hv
      have hcmd : DelayKillerLite.cmdOfPair p = t p.2 := by
        unfold DelayKillerLite.cmdOfPair
        rw [ht]
      rw [hcmd]
      exact hshape
  · intro hnone
    exact DelayKillerLite.restoreTcpPairs_keys _ k hnone hg.1
  · intro w hw hb
    simp [DelayKillerLite.apply_tcp_tweaks, DelayKillerLite.backup_settings,
      DelayKillerLite.restore_from_backup, hw, hb]

/-- Witness for C1 at a concrete probe output and prior state: the absent
`ecncapability` field is left untouched by the replay, and a present field's
key never collides with it. -/
theorem claim1_witness :
    DelayKillerLite.execTcp (fun _ => "prior")
        (DelayKillerLite.restoreTcpPairs
          (DelayKillerLite.get_tcp_globals true 0 sampleTcpNoEcn)) "ecncapability"
      = "prior"
    ∧ ("autotuninglevel" : String) ≠ "ecncapability" := by
  have h := claim1_tcp_restore_roundtrip true 0 sampleTcpNoEcn (fun _ => "prior")
    "ecncapability"
  refine ⟨?_, ?_⟩
  · rw [h.1]
    rfl
  · exact h.2.2.2.1 (by rfl) ("autotuninglevel", "normal") (by decide)

/-- C2 counterexample: a snapshot DNS entry whose interface name is the
empty string has `dhcp=false` and a non-empty server list, yet the restore
path issues no DNS command at all (the loop skips falsy interface names),
in particular not the set-static-primary command the claim requires. -/
theorem claim2_counterexample :
    DelayKillerLite.restore_from_backup true true
        ⟨[], [("", ⟨false, ["8.8.8.8"]⟩)], none⟩ = (true, [])
    ∧ ([] : List String) ≠ [DelayKillerLite.dnsStaticCmd "" "8.8.8.8"] := by
  exact ⟨rfl, by decide⟩

/-- C2 (amended): for every snapshot DNS entry with a non-empty interface
name, `dhcp=true` issues exactly the single `source=dhcp` command with the
server list ignored; `dhcp=false` with a non-empty server list issues the
set-static-primary command for the first server first and then one add-dns
command per remaining server in list order with indices 2, 3, 4, ...;
`dhcp=false` with an empty server list issues nothing. -/
theorem claim2_dns_restore_order (iface : String) (info : DelayKillerLite.DnsInfo)
    (s0 : String) (rest : List String) (hif : iface ≠ "") :
    (info.dhcp = true →
      DelayKillerLite.restoreDnsEntry iface info = [DelayKillerLite.dnsDhcpCmd iface])
    ∧ (info.dhcp = false → info.servers = s0 :: rest →
        DelayKillerLite.restoreDnsEntry iface info
          = DelayKillerLite.dnsStaticCmd iface s0 ::
              (enumFrom 2 rest).map (fun p => DelayKillerLite.dnsAddCmd iface p.1 p.2)
        ∧ ∀ j s, rest.get? j = some s →
            (DelayKillerLite.restoreDnsEntry iface info).get? (j + 1)
              = some (DelayKillerLite.dnsAddCmd iface (j + 2) s))
    ∧ (info.dhcp = false → info.servers = [] →
        DelayKillerLite.restoreDnsEntry iface info = []) := by
  rcases info with ⟨d, servers⟩
  refine ⟨?_, ?_, ?_⟩
  · intro hd
    have hd' : d = true := hd
    subst hd'
    simp [DelayKillerLite.restoreDnsEntry, hif]
  · intro hd hs
    have hd' : d = false := hd
    have hs' : servers = s0 :: rest := hs
    subst hd'
    subst hs'
    have hlist : DelayKillerLite.restoreDnsEntry iface ⟨false, s0 :: rest⟩
        = DelayKillerLite.dnsStaticCmd iface s0 ::
            (enumFrom 2 rest).map (fun p => DelayKillerLite.dnsAddCmd iface p.1 p.2) := by
      simp [DelayKillerLite.restoreDnsEntry, hif]
    refine ⟨hlist, ?_⟩
    intro j s hj
    rw [hlist]
    rw [show (DelayKillerLite.dnsStaticCmd iface s0 ::
        (enumFrom 2 rest).map (fun p => DelayKillerLite.dnsAddCmd iface p.1 p.2)).get? (j + 1)
      = ((enumFrom 2 rest).map (fun p => DelayKillerLite.dnsAddCmd iface p.1 p.2)).get? j
      from rfl]
    rw [List.get?_map, enumFrom_get? 2 rest j, hj]
    rw [show 2 + j = j + 2 from Nat.add_comm 2 j]
    rfl
  · intro hd hs
    have hd' : d = false := hd
    have hs' : servers = [] := hs
    subst hd'
    subst hs'
    simp [DelayKillerLite.restoreDnsEntry, hif]

/-- Witness for C2 at the spec's concrete snapshot entry: interface
"Ethernet", `dhcp=false`, servers 8.8.8.8, 8.8.4.4, 1.1.1.1. -/
theorem claim2_witness :
    DelayKillerLite.restoreDnsEntry "Ethernet" ⟨false, ["8.8.8.8", "8.8.4.4", "1.1.1.1"]⟩
      = [ "netsh interface ipv4 set dns name=\"Ethernet\" static 8.8.8.8 primary"
        , "netsh interface ipv4 add dns name=\"Ethernet\" 8.8.4.4 index=2"
        , "netsh interface ipv4 add dns name=\"Ethernet\" 1.1.1.1 index=3" ] := by
  have h := (claim2_dns_restore_order "Ethernet"
      ⟨false, ["8.8.8.8", "8.8.4.4", "1.1.1.1"]⟩ "8.8.8.8" ["8.8.4.4", "1.1.1.1"]
      (by decide)).2.1 rfl rfl
  rw [h.1]
  rfl

/-- C3 counterexample: `delaykiller.py`'s `run_cmd` (one of the two
CommandRunner implementations the claim covers) returns `(1, "Timed out")`
on a command timeout - the output is not empty and the exit code 1
coincides with the code of the generic invocation-failure branch, so it is
not distinguished. -/
theorem claim3_counterexample :
    Delaykiller.runCmd Delaykiller.ProcResult.timedOut = (1, "Timed out")
    ∧ ("Timed out" : String) ≠ ""
    ∧ (Delaykiller.runCmd (Delaykiller.ProcResult.failed "boom")).1
        = (Delaykiller.runCmd Delaykiller.ProcResult.timedOut).1 := by
  exact ⟨rfl, by decide, rfl⟩

/-- C3 (amended): both CommandRunner embeddings always return a
`(code, output)` pair (they are total functions).  `DelayKillerLite.py`'s
`run_cmd` satisfies the claimed contract: timeout gives the distinguished
non-zero code 124 with empty output, any other invocation failure gives
exit code 1 with the exception message, and on completion standard output
is preferred with standard error substituted only when stripped standard
output is empty.  `delaykiller.py`'s `run_cmd` instead returns
`(1, "Timed out")` on timeout (code not distinct from the generic failure
code, output non-empty) and always captures standard error merged into
standard output rather than substituting it. -/
theorem claim3_run_cmd_contract (rc : Int) (out err e : String) :
    DelayKillerLite.runCmd DelayKillerLite.ProcResult.timedOut = (124, "")
    ∧ (124 : Int) ≠ 0
    ∧ DelayKillerLite.runCmd (DelayKillerLite.ProcResult.failed e) = (1, e)
    ∧ (pyStripS out ≠ "" →
        DelayKillerLite.runCmd (DelayKillerLite.ProcResult.completed rc out err)
          = (rc, pyStripS out))
    ∧ (pyStripS out = "" → err ≠ "" →
        DelayKillerLite.runCmd (DelayKillerLite.ProcResult.completed rc out err)
          = (rc, pyStripS err))
    ∧ (pyStripS out = "" → err = "" →
        DelayKillerLite.runCmd (DelayKillerLite.ProcResult.completed rc out err)
          = (rc, ""))
    ∧ Delaykiller.runCmd Delaykiller.ProcResult.timedOut = (1, "Timed out")
    ∧ Delaykiller.runCmd (Delaykiller.ProcResult.failed e) = (1, e)
    ∧ Delaykiller.runCmd (Delaykiller.ProcResult.completed rc out) = (rc, pyStripS out) := by
  have hc : DelayKillerLite.runCmd (DelayKillerLite.ProcResult.completed rc out err)
      = if pyStripS out = "" ∧ err ≠ "" then (rc, pyStripS err) else (rc, pyStripS out) := rfl
  refine ⟨rfl, by decide, rfl, ?_, ?_, ?_, rfl, rfl, rfl⟩
  · intro h
    rw [hc, if_neg (fun hcc => h hcc.1)]
  · intro h1 h2
    rw [hc, if_pos ⟨h1, h2⟩]
  · intro h1 h2
    rw [hc, if_neg (fun hcc => hcc.2 h2), h1]

/-- Witness for C3 at concrete completed-process results, discharging each
branch hypothesis. -/
theorem claim3_witness :
    DelayKillerLite.runCmd (DelayKillerLite.ProcResult.completed 0 " hello \n" "warn")
      = (0, "hello")
    ∧ DelayKillerLite.runCmd (DelayKillerLite.ProcResult.completed 2 "  " " oops ")
      = (2, "oops")
    ∧ DelayKillerLite.runCmd (DelayKillerLite.ProcResult.completed 3 "" "") = (3, "") := by
  refine ⟨?_, ?_, ?_⟩
  · exact (claim3_run_cmd_contract 0 " hello \n" "warn" "e").2.2.2.1 (by decide)
  · exact (claim3_run_cmd_contract 2 "  " " oops " "e").2.2.2.2.1 (by decide) (by decide)
  · exact (claim3_run_cmd_contract 3 "" "" "e").2.2.2.2.2.1 (by decide) (by decide)

/-- C4: Partial-field tolerance of the TCP probe.  For any non-empty
utility output on which the ECN pattern finds no match while each of the
other five patterns produces a usable value, the probe returns the record
with `ecncapability` absent (`None`) and each other field present with its
parsed value; one field's failure neither fails the probe nor drops any
other field. -/
theorem claim4_partial_field_tolerance (out : String) (v1 v3 v4 v5 v6 : String)
    (h0 : out ≠ "")
    (h1 : DelayKillerLite.entryFor DelayKillerLite.autotuningPat (normalizeLines out.data)
        = [("autotuninglevel", some v1)])
    (h2 : DelayKillerLite.entryFor DelayKillerLite.ecnPat (normalizeLines out.data)
        = [("ecncapability", none)])
    (h3 : DelayKillerLite.entryFor DelayKillerLite.rssPat (normalizeLines out.data)
        = [("rss", some v3)])
    (h4 : DelayKillerLite.entryFor DelayKillerLite.chimneyPat (normalizeLines out.data)
        = [("chimney", some v4)])
    (h5 : DelayKillerLite.entryFor DelayKillerLite.congestionPat (normalizeLines out.data)
        = [("congestionprovider", some v5)])
    (h6 : DelayKillerLite.entryFor DelayKillerLite.timestampsPat (normalizeLines out.data)
        = [("timestamps", some v6)]) :
    DelayKillerLite.get_tcp_globals true 0 out
      = [("autotuninglevel", some v1), ("ecncapability", none), ("rss", some v3),
         ("chimney", some v4), ("congestionprovider", some v5),
         ("timestamps", some v6)] := by
  rw [DelayKillerLite.get_tcp_globals, if_neg (by simp), if_neg (by simp [h0])]
  simp [DelayKillerLite.tcpPatterns, h1, h2, h3, h4, h5, h6]

/-- Witness for C4 at a concrete netsh-style output with the ECN line
missing: the other five fields parse and `ecncapability` is absent. -/
theorem claim4_witness :
    DelayKillerLite.get_tcp_globals true 0 sampleTcpNoEcn
      = [("autotuninglevel", some "normal"), ("ecncapability", none),
         ("rss", some "enabled"), ("chimney", some "disabled"),
         ("congestionprovider", some "none"), ("timestamps", some "disabled")] :=
  claim4_partial_field_tolerance sampleTcpNoEcn "normal" "enabled" "disabled" "none"
    "disabled" (by decide) (by rfl) (by rfl) (by rfl) (by rfl) (by rfl) (by rfl)

/-- A scripted MTU probe responder that answers with a ping reply exactly
when the payload is at most 1452 bytes (a 1480-byte path MTU). -/
def mtuResponder : Nat → Int × String :=
  fun p =>
    if p ≤ 1452 then (0, "Reply from 8.8.8.8: bytes=32 time=12ms TTL=117")
    else (1, "Packet needs to be fragmented but DF set.")

theorem probe_mtu_go_len (oracle : Nat → Int × String) :
    ∀ fuel mtu, 10 * (Delaykiller.probe_mtu_go oracle fuel mtu).2.length ≤ mtu - 1190 := by
  intro fuel
  induction fuel with
  | zero => intro mtu; simp [Delaykiller.probe_mtu_go]
  | succ f ih =>
    intro mtu
    rw [Delaykiller.probe_mtu_go]
    by_cases h : mtu < 1200
    · rw [if_pos h]
      simp
    · rw [if_neg h]
      show 10 * ((if Delaykiller.pingOk (oracle (mtu - 28)) = true
          then (some mtu, [mtu - 28])
          else match Delaykiller.probe_mtu_go oracle f (mtu - 10) with
            | (r, t) => (r, (mtu - 28) :: t)).2.length) ≤ mtu - 1190
      by_cases hp : Delaykiller.pingOk (oracle (mtu - 28)) = true
      · rw [if_pos hp]
        simp only [List.length_singleton]
        omega
      · rw [if_neg hp]
        rcases hgo : Delaykiller.probe_mtu_go oracle f (mtu - 10) with ⟨r, t⟩
        have hlen := ih (mtu - 10)
        rw [hgo] at hlen
        simp only [List.length_cons]
        simp only at hlen
        omega

/-- C5 counterexample: against the responder that succeeds exactly at
payload at most 1452, discovery returns 1480 but issues three probes
(payloads 1472, 1462, 1452), not the two the claim states. -/
theorem claim5_counterexample :
    Delaykiller.probe_mtu mtuResponder = (some 1480, [1472, 1462, 1452])
    ∧ ([1472, 1462, 1452] : List Nat).length ≠ 2 := by
  exact ⟨rfl, by decide⟩

/-- C5 (amended): `probe_mtu` starts at candidate 1500, probes payload
`candidate - 28` once per iteration, returns the candidate on the first
success, steps down by 10 on failure, and gives up below 1200; hence at
most 31 probes are issued for any responder, and against the responder
succeeding exactly at payload at most 1452 it returns 1480 after exactly
three probes (1500 and 1490 fail, 1480 succeeds). -/
theorem claim5_mtu_discovery :
    Delaykiller.probe_mtu mtuResponder = (some 1480, [1472, 1462, 1452])
    ∧ ∀ oracle, (Delaykiller.probe_mtu oracle).2.length ≤ 31 := by
  refine ⟨rfl, ?_⟩
  intro oracle
  have h := probe_mtu_go_len oracle 151 1500
  unfold Delaykiller.probe_mtu
  omega

/-- C6 counterexample: with no snapshot file present, calling the TCP apply
with `enable=False` and the default `backup=True` does not issue the fixed
default sequence: `backup_settings` first creates a snapshot (here from
probe outputs that parse to nothing), and the freshly written snapshot is
then restored, returning the restore message with no default command
issued. -/
theorem claim6_counterexample :
    DelayKillerLite.apply_tcp_tweaks
        ⟨true, false, ⟨[], [], none⟩, false, false, "Ethernet", (0, "x"), (0, "x"), (0, "x")⟩
        false true
      = ((0, "TCP tweaks restored from backup"), [])
    ∧ ([] : List String) ≠ DelayKillerLite.tcpOffDefaultCmds := by
  exact ⟨rfl, by decide⟩

/-- C6 (amended): calling the TCP tweak apply with `enable=false` and
`backup=false` (as the reset path calls it) while no snapshot file exists
issues exactly the fixed hardcoded default sequence (autotuninglevel=normal,
ecncapability=default, rss=default, chimney=disabled) and returns status 0
with a message; with `backup=true` a successful capture creates a snapshot
mid-call which is then restored instead of the defaults. -/
theorem claim6_fallback_defaults (w : DelayKillerLite.World)
    (h1 : w.isWindows = true) (h2 : w.backupExists = false) :
    DelayKillerLite.apply_tcp_tweaks w false false
      = ((0, "TCP tweaks applied"), DelayKillerLite.tcpOffDefaultCmds) := by
  simp [DelayKillerLite.apply_tcp_tweaks, h1, h2]

/-- Witness for C6 at a concrete world with no snapshot file. -/
theorem claim6_witness :
    DelayKillerLite.apply_tcp_tweaks
        ⟨true, false, ⟨[], [], none⟩, true, false, "Ethernet", (0, ""), (0, ""), (0, "")⟩
        false false
      = ((0, "TCP tweaks applied"), DelayKillerLite.tcpOffDefaultCmds) :=
  claim6_fallback_defaults _ rfl rfl

theorem off_branch_fst (w1 : DelayKillerLite.World) :
    ((if w1.backupExists = true then
        (if (DelayKillerLite.restore_from_backup w1.backupExists w1.loadOk w1.snapshot).1
            = true then
          (((0 : Int), "TCP tweaks restored from backup"),
            (DelayKillerLite.restore_from_backup w1.backupExists w1.loadOk w1.snapshot).2)
         else
          (((0 : Int), "TCP tweaks applied"),
            (DelayKillerLite.restore_from_backup w1.backupExists w1.loadOk w1.snapshot).2
              ++ DelayKillerLite.tcpOffDefaultCmds))
      else (((0 : Int), "TCP tweaks applied"), DelayKillerLite.tcpOffDefaultCmds)) :
      (Int × String) × List String).1.1 = 0 := by
  split
  · split
    · rfl
    · rfl
  · rfl

theorem apply_fst_zero (w : DelayKillerLite.World) (e b : Bool)
    (h : w.isWindows = true) :
    (DelayKillerLite.apply_tcp_tweaks w e b).1.1 = 0 := by
  unfold DelayKillerLite.apply_tcp_tweaks
  rw [if_neg (by simp [h])]
  cases e with
  | true => rfl
  | false =>
    cases b with
    | true => exact off_branch_fst (DelayKillerLite.backup_settings w).2
    | false => exact off_branch_fst w

/-- C7: Capture failures never block the primary action.  `backup_settings`
catches every internal failure and reports it as the boolean flag (`false`
exactly when a step raised, with the snapshot file left unchanged), while
`apply_tcp_tweaks` with `backup=true` issues its fixed mutating sequence and
returns its own success result for the enable path whatever the backup did,
and returns status 0 for either enable value. -/
theorem claim7_backup_never_blocks (w : DelayKillerLite.World) (e : Bool)
    (h : w.isWindows = true) :
    DelayKillerLite.backup_settings { w with backupRaises := true }
      = (false, { w with backupRaises := true })
    ∧ (DelayKillerLite.backup_settings w).1 = !w.backupRaises
    ∧ DelayKillerLite.apply_tcp_tweaks w true true
      = ((0, "TCP tweaks applied"), DelayKillerLite.tcpOnCmds)
    ∧ (DelayKillerLite.apply_tcp_tweaks w e true).1.1 = 0 := by
  refine ⟨rfl, ?_, ?_, apply_fst_zero w e true h⟩
  · cases hb : w.backupRaises <;> simp [DelayKillerLite.backup_settings, hb]
  · simp [DelayKillerLite.apply_tcp_tweaks, h]

/-- Witness for C7 at a concrete world whose backup raises: the apply still
issues its sequence and reports success. -/
theorem claim7_witness :
    DelayKillerLite.apply_tcp_tweaks
        ⟨true, false, ⟨[], [], none⟩, true, true, "Ethernet", (0, ""), (0, ""), (0, "")⟩
        true true
      = ((0, "TCP tweaks applied"), DelayKillerLite.tcpOnCmds)
    ∧ (DelayKillerLite.apply_tcp_tweaks
        ⟨true, false, ⟨[], [], none⟩, true, true, "Ethernet", (0, ""), (0, ""), (0, "")⟩
        false true).1.1 = 0 := by
  have h := claim7_backup_never_blocks
    ⟨true, false, ⟨[], [], none⟩, true, true, "Ethernet", (0, ""), (0, ""), (0, "")⟩
    false rfl
  exact ⟨h.2.2.1, h.2.2.2⟩

/-- C8 counterexample: an output containing the lowercase word "dhcp" but no
literal "DHCP" anywhere (not even as a substring) still makes the probe
report `dhcp=true`, so "dhcp=true exactly when a literal DHCP token appears"
fails in the right-to-left direction. -/
theorem claim8_counterexample :
    (DelayKillerLite.get_dns_info true 0 "DNS configured through dhcp").dhcp = true
    ∧ ¬ ∃ pre post,
        "DNS configured through dhcp".data = pre ++ "DHCP".data ++ post := by
  refine ⟨rfl, fun hex => ?_⟩
  exact absurd ((containsSub_iff "DHCP".data "DNS configured through dhcp".data).mpr hex)
    (by decide)

/-- C8 (amended): for any utility output (with a successful, non-empty
query), `get_dns_info` reports `dhcp=true` exactly when "DHCP" or "dhcp"
occurs in the output as a whole word (the pattern's two case-sensitive
alternatives), and every extracted server string is a dotted-quad token
(four dot-separated groups of one to three digits); they are extracted in
order of appearance with the first treated as primary on restore. -/
theorem claim8_dns_probe_parsing (out : String) :
    ((DelayKillerLite.get_dns_info true 0 out).dhcp = true ↔
      DelayKillerLite.TokenOccurs "DHCP".data out.data
        ∨ DelayKillerLite.TokenOccurs "dhcp".data out.data)
    ∧ ∀ tok ∈ (DelayKillerLite.get_dns_info true 0 out).servers,
        DelayKillerLite.DottedQuad tok := by
  by_cases hout : out = ""
  · subst hout
    constructor
    · constructor
      · intro h
        cases h
      · rintro (⟨pre, post, heq, -, -⟩ | ⟨pre, post, heq, -, -⟩) <;>
        · have h2 : pre ++ ("DHCP".data ++ post) = [] ∨ pre ++ ("dhcp".data ++ post) = [] := by
            first
              | exact Or.inl (by rw [← List.append_assoc]; exact heq.symm)
              | exact Or.inr (by rw [← List.append_assoc]; exact heq.symm)
          rcases h2 with h2 | h2 <;>
            rcases List.append_eq_nil.mp h2 with ⟨-, h3⟩ <;>
            rcases List.append_eq_nil.mp h3 with ⟨h4, -⟩ <;>
            exact absurd h4 (by decide)
    · intro tok htok
      cases htok
  · have hg : DelayKillerLite.get_dns_info true 0 out
        = ⟨DelayKillerLite.wordScanAux ["DHCP".data, "dhcp".data] false out.data,
           DelayKillerLite.findIPv4 out⟩ := by
      unfold DelayKillerLite.get_dns_info
      rw [if_neg (by simp), if_neg (by simp [hout])]
    rw [hg]
    constructor
    · show DelayKillerLite.wordScanAux ["DHCP".data, "dhcp".data] false out.data = true ↔ _
      rw [DelayKillerLite.wordScanAux_iff]
      constructor
      · rintro ⟨w, hw, pre, post, heq, hpre, hpost⟩
        rcases List.mem_cons.mp hw with hw1 | hw1
        · subst hw1
          exact Or.inl ⟨pre, post, heq, hpre, hpost⟩
        · rcases List.mem_cons.mp hw1 with hw2 | hw2
          · subst hw2
            exact Or.inr ⟨pre, post, heq, hpre, hpost⟩
          · cases hw2
      · rintro (⟨pre, post, heq, hpre, hpost⟩ | ⟨pre, post, heq, hpre, hpost⟩)
        · exact ⟨"DHCP".data, by simp, pre, post, heq, hpre, hpost⟩
        · exact ⟨"dhcp".data, by simp, pre, post, heq, hpre, hpost⟩
    · intro tok htok
      exact DelayKillerLite.findIPv4_sound out tok htok

/-- Witness for C8 at a concrete output: the extracted server token has the
dotted-quad shape, and the output without any DHCP word reports
`dhcp=false`. -/
theorem claim8_witness :
    DelayKillerLite.DottedQuad "192.168.1.7"
    ∧ (DelayKillerLite.get_dns_info true 0
        "Statically Configured DNS Servers: 192.168.1.7").dhcp = false := by
  have h := claim8_dns_probe_parsing "Statically Configured DNS Servers: 192.168.1.7"
  exact ⟨h.2 "192.168.1.7" (by decide), rfl⟩

/-- C9: DNS benchmark undetermined handling.  A candidate server whose ping
output has no parseable "Average" value is recorded in the result mapping
with latency `None` rather than excluded, and (against the spec-modelled
ranking, since the repository itself ships no ranking logic) a server
selected as best always has a determined latency entry, so an undetermined
entry is never selected. -/
theorem claim9_benchmark_undetermined (oracle : String → Int × String)
    (servers : List String) (s : String) (h1 : s ∈ servers)
    (h2 : Delaykiller.avg_of_output (oracle s).2 = none) :
    lookupA (Delaykiller.dns_benchmark true oracle servers) s = some none
    ∧ ∀ (results : List (String × Option Int)) (t : String),
        Delaykiller.selectBest results = some t → ∃ v, (t, some v) ∈ results := by
  constructor
  · have hf := fold_lookup (fun x => Delaykiller.avg_of_output (oracle x).2) servers s []
      (Or.inr h1)
    have hf2 : lookupA (servers.foldl
        (fun acc x => dictInsert acc x (Delaykiller.avg_of_output (oracle x).2)) []) s
        = some (Delaykiller.avg_of_output (oracle s).2) := hf
    rw [h2] at hf2
    unfold Delaykiller.dns_benchmark
    rw [if_neg (by simp)]
    exact hf2
  · exact selectBest_spec

/-- Witness for C9 at a concrete unparseable ping output. -/
theorem claim9_witness :
    lookupA (Delaykiller.dns_benchmark true (fun _ => (0, "Request timed out."))
        ["9.9.9.9"]) "9.9.9.9" = some none := by
  exact (claim9_benchmark_undetermined (fun _ => (0, "Request timed out."))
    ["9.9.9.9"] "9.9.9.9" (by decide) (by rfl)).1

/-- C10: when the `show global` query fails (non-zero code or empty output)
`get_tcp_globals` returns the entirely empty record, and a snapshot with
that record makes the TCP restore loop issue zero commands; whereas on a
successful non-empty output on which no field pattern matches, the record
has all six keys present with absent values - a different shape. -/
theorem claim10_query_failure_shape (qc : Int) (out out2 : String) :
    (qc ≠ 0 ∨ out = "" →
      DelayKillerLite.get_tcp_globals true qc out = []
      ∧ DelayKillerLite.restoreTcpCmds (DelayKillerLite.get_tcp_globals true qc out) = [])
    ∧ (out2 ≠ "" →
        (∀ p ∈ DelayKillerLite.tcpPatterns,
          DelayKillerLite.searchPatAux p false (normalizeLines out2.data) = none) →
        DelayKillerLite.get_tcp_globals true 0 out2
          = DelayKillerLite.tcpPatterns.map (fun p => (p.key, none))) := by
  constructor
  · intro h
    have he : DelayKillerLite.get_tcp_globals true qc out = [] := by
      rw [DelayKillerLite.get_tcp_globals, if_neg (by simp), if_pos h]
    refine ⟨he, ?_⟩
    rw [he]
    rfl
  · intro h0 hall
    rw [DelayKillerLite.get_tcp_globals, if_neg (by simp), if_neg (by simp [h0])]
    apply flatMap_singleton_map
    intro p hp
    unfold DelayKillerLite.entryFor
    rw [hall p hp]

/-- Witness for C10: a failing query gives the empty record and no restore
command; a successful query over unrecognised text gives the all-absent
six-key record. -/
theorem claim10_witness :
    DelayKillerLite.get_tcp_globals true 1 "some output" = []
    ∧ DelayKillerLite.restoreTcpCmds (DelayKillerLite.get_tcp_globals true 1 "some output") = []
    ∧ DelayKillerLite.get_tcp_globals true 0 "no recognisable fields here"
      = [("autotuninglevel", none), ("ecncapability", none), ("rss", none),
         ("chimney", none), ("congestionprovider", none), ("timestamps", none)] := by
  have ha := (claim10_query_failure_shape 1 "some output" "no recognisable fields here").1
    (Or.inl (by decide))
  have hb := (claim10_query_failure_shape 1 "some output" "no recognisable fields here").2
    (by decide) (by decide)
  refine ⟨ha.1, ha.2, ?_⟩
  rw [hb]
  rfl
